import Mathlib

/-!
Verification of the response-interpretation core of the `facebook` Go client
library (huandu/facebook): the Value Store, Path Resolver, Decoder, Error
Extractor, Paginator and Batch Result Expander described by the repository's
specification.  The repository's `type.go` declares the interfaces
(`ResultService.Get/Set/GetField/Decode/Err/Paging/Batch`) and data types
(`Result`, `PagingResult`, `BatchResult`, `Error`); the method bodies live
outside the provided sources, so the operations are modelled from the spec,
faithfully to its words, and verified against the claimed properties.
-/

set_option autoImplicit false

namespace Facebook

/-- A decoded JSON value: the closed variant the spec gives for the Value
Store's values (`Null | Bool | Number | String | Sequence[Value] |
Object(ValueStore)`).  Numbers are modelled as integers; only their kind
matters to the claims under study. -/
inductive Value where
  | null
  | bool (b : Bool)
  | num (n : Int)
  | str (s : String)
  | seq (xs : List Value)
  | obj (fields : List (String × Value))

/-- `Result` from `type.go`: `map[string]interface{}`, one decoded JSON
object.  Modelled as an association list from field names to values; lookup
takes the first binding of a key, mirroring map semantics. -/
abbrev Result : Type := List (String × Value)

/-- First-match association lookup, the model of reading a key of a Go
`map[string]interface{}` (absent keys give the zero value, i.e. `none`). -/
def lookupField : List (String × Value) → String → Option Value
  | [], _ => none
  | (k, v) :: rest, f => if k = f then some v else lookupField rest f

/-- Modelled from the spec: `ResultService.Get` (body not in the provided
sources) — `get(key) -> Value|absent`; a key absent from the store yields
the absent value, never a failure. -/
def Get (r : Result) (field : String) : Option Value :=
  lookupField r field

/-- Modelled from the spec: `ResultService.Set` (body not in the provided
sources) — `set(key, Value)` replaces the binding of an existing key and
adds a binding for a new key, leaving every other field untouched. -/
def Set : Result → String → Value → Result
  | [], f, v => [(f, v)]
  | (k, w) :: rest, f, v => if k = f then (f, v) :: rest else (k, w) :: Set rest f v

/-- Accumulator pass of a decimal digit parser over a segment's characters;
any non-digit character rejects the whole segment. -/
def digitsToNat : List Char → Nat → Option Nat
  | [], acc => some acc
  | c :: cs, acc =>
      if c.isDigit then digitsToNat cs (acc * 10 + (c.toNat - 48)) else none

/-- Modelled from the spec: parsing a path segment as a non-negative
integer sequence index (the Go code uses `strconv`-style parsing; a
non-numeric or negative segment does not parse). -/
def parseIndex (s : String) : Option Nat :=
  match s.data with
  | [] => none
  | cs => digitsToNat cs 0

/-- Modelled from the spec: the Path Resolver behind
`ResultService.GetField` (body not in the provided sources).  Walk the path
segments left to right; objects are entered by key (missing key is
not-found), sequences by a segment that parses as a non-negative integer
index (non-numeric or out-of-range is not-found), and a null or scalar met
before the path is exhausted is not-found.  The empty path resolves to the
root. -/
def resolve : Value → List String → Option Value
  | v, [] => some v
  | .obj fs, f :: rest =>
      match lookupField fs f with
      | some v => resolve v rest
      | none => none
  | .seq xs, f :: rest =>
      match parseIndex f with
      | some i =>
          match xs[i]? with
          | some v => resolve v rest
          | none => none
      | none => none
  | _, _ :: _ => none

/-- Whether a key is bound in an object. -/
def containsKey (o : List (String × Value)) (k : String) : Bool :=
  (lookupField o k).isSome

/-- Read a string field of an object, defaulting to the empty string when
the field is missing or not a string. -/
def getStrField (o : List (String × Value)) (k : String) : String :=
  match lookupField o k with
  | some (.str s) => s
  | _ => ""

/-- Read a numeric field of an object, defaulting to zero when the field is
missing or not a number. -/
def getIntField (o : List (String × Value)) (k : String) : Int :=
  match lookupField o k with
  | some (.num n) => n
  | _ => 0

/-- `Error` from `type.go`: the facebook API error with message, type,
numeric code and subcode. -/
structure Error where
  Message : String
  «Type» : String
  Code : Int
  ErrorSubcode : Int

/-- An entry of a Value Store matching the API error envelope shape: its
value is an Object containing at least a `message` field. -/
def isErrorEntry : String × Value → Bool
  | (_, .obj o) => containsKey o "message"
  | _ => false

/-- Synthesize an `Error` from an error-envelope object: `message`, `type`,
`code`, `error_subcode`, with missing numeric fields defaulting to zero and
missing type defaulting to empty. -/
def mkError (o : List (String × Value)) : Error :=
  { Message := getStrField o "message"
    «Type» := getStrField o "type"
    Code := getIntField o "code"
    ErrorSubcode := getIntField o "error_subcode" }

/-- Modelled from the spec: the Error Extractor behind `ResultService.Err`
(body not in the provided sources) — if the store contains a key whose
value is itself an Object containing at least a `message` field, synthesize
an `Error` from it; absence of a match is not itself an error. -/
def Err : Result → Option Error
  | [] => none
  | (_, .obj o) :: rest =>
      if containsKey o "message" then some (mkError o) else Err rest
  | _ :: rest => Err rest

/-- `PagingResult` from `type.go`: a paging view over one listing result,
holding the data items and the optional previous/next continuation URLs
(absent modelled as the empty string, the zero value of the Go field). -/
structure PagingResult where
  data : List Value
  previous : String
  next : String

/-- Modelled from the spec: construction of a `PagingResult` from a listing
store (`ResultService.Paging` body not in the provided sources): the
`data` sequence plus `paging.previous`/`paging.next` URLs; a store with no
`paging` key yields both directions absent, a normal state rather than an
error. -/
def mkPagingResult (r : Result) : PagingResult :=
  let dataItems : List Value :=
    match lookupField r "data" with
    | some (.seq xs) => xs
    | _ => []
  match lookupField r "paging" with
  | some (.obj p) =>
      { data := dataItems
        previous := getStrField p "previous"
        next := getStrField p "next" }
  | _ => { data := dataItems, previous := "", next := "" }

/-- Whether a next page URL is available. -/
def HasNext (pr : PagingResult) : Bool :=
  pr.next != ""

/-- Whether a previous page URL is available. -/
def HasPrevious (pr : PagingResult) : Bool :=
  pr.previous != ""

/-- A pagination direction. -/
inductive Direction where
  | next
  | previous

/-- Pagination failures: the requested direction has no page, or the
delegated call failed in transport. -/
inductive PageError where
  | noSuchPage
  | transport (msg : String)

/-- Modelled from the spec: `advance(direction, callExecutor)` (body not in
the provided sources).  If the continuation URL for the direction is
absent, fail with `noSuchPage` without calling the executor; otherwise make
exactly one call and build a brand-new listing result.  The second
component counts the calls made through the executor. -/
def advance (pr : PagingResult) (dir : Direction)
    (exec : String → Except String Result) :
    Except PageError PagingResult × Nat :=
  let url := match dir with | .next => pr.next | .previous => pr.previous
  if url = "" then (.error .noSuchPage, 0)
  else
    match exec url with
    | .error e => (.error (.transport e), 1)
    | .ok r => (.ok (mkPagingResult r), 1)

/-- A raw batch sub-response as returned by the transport for one item of a
multi-call batch request: status code, header mapping and body string. -/
structure RawBatchItem where
  code : Int
  headers : List (String × String)
  body : String

/-- `BatchResult` from `type.go`: one expanded batch item, pairing the raw
transport metadata (status code, headers, raw body string) with the result
parsed from the body; the parse outcome keeps the parse error when the body
is not valid JSON, as the spec requires the decoded slot to be explicitly
marked unavailable with the error retained. -/
structure BatchResult where
  StatusCode : Int
  Header : List (String × String)
  Body : String
  Result : Except String Result

/-- Modelled from the spec: expansion of one raw batch item
(`ResultService.Batch` body not in the provided sources): parse the body
string with the given JSON parser; on failure the decoded slot retains the
parse error while the status code and headers remain usable. -/
def expandBatchItem (parse : String → Except String Result)
    (it : RawBatchItem) : BatchResult :=
  { StatusCode := it.code
    Header := it.headers
    Body := it.body
    Result := parse it.body }

/-- Modelled from the spec: the Batch Result Expander, mapping the ordered
raw items to the same-length ordered list of expanded results. -/
def Batch (parse : String → Except String Result)
    (items : List RawBatchItem) : List BatchResult :=
  items.map (expandBatchItem parse)

/-- The shape of a caller-supplied Decode Target: scalar slots,
optional/pointer slots, sequence slots and records with named fields (the
reflective view the Decoder drives over a Go struct). -/
inductive TargetTy where
  | str
  | num
  | bool
  | opt (t : TargetTy)
  | seqT (t : TargetTy)
  | record (fields : List (String × TargetTy))

/-- A fully populated decode target: one typed value per target shape. -/
inductive TVal where
  | vstr (s : String)
  | vnum (n : Int)
  | vbool (b : Bool)
  | vopt (v : Option TVal)
  | vseq (vs : List TVal)
  | vrecord (fs : List (String × TVal))

/-- A decode type mismatch: the field path so far, the expected kind and
the actual kind. -/
structure TypeMismatchError where
  path : String
  expected : String
  actual : String

/-- The kind of a source value as named in mismatch messages. -/
def kindName : Value → String
  | .null => "null"
  | .bool _ => "bool"
  | .num _ => "number"
  | .str _ => "string"
  | .seq _ => "sequence"
  | .obj _ => "object"

/-- Extend the dotted field path by one segment. -/
def extendPath (p name : String) : String :=
  if p = "" then name else p ++ "." ++ name

mutual

/-- The zero value of a target shape: empty string, zero, false, empty
optional slot, empty sequence, record of zero fields. -/
def zeroVal : TargetTy → TVal
  | .str => .vstr ""
  | .num => .vnum 0
  | .bool => .vbool false
  | .opt _ => .vopt none
  | .seqT _ => .vseq []
  | .record fts => .vrecord (zeroFields fts)

/-- The zero values of a record's fields. -/
def zeroFields : List (String × TargetTy) → List (String × TVal)
  | [] => []
  | (n, t) :: rest => (n, zeroVal t) :: zeroFields rest

end

mutual

/-- Modelled from the spec: the Decoder behind `ResultService.Decode` and
`ResultService.decode` (bodies not in the provided sources).  A recursive
structural mapper driven by the target shape: scalars require a matching
scalar kind (a numeric string is not auto-coerced to a number); a null
source fills an optional slot with its empty state and a sequence target
with the empty sequence but mismatches a non-optional scalar; record
fields are looked up by name, absent fields are left at their zero value;
the first mismatch aborts the whole decode and is reported with the field
path so far and the expected and actual kinds. -/
def decode : TargetTy → Value → String → Except TypeMismatchError TVal
  | .str, .str s, _ => .ok (.vstr s)
  | .str, v, p => .error { path := p, expected := "string", actual := kindName v }
  | .num, .num n, _ => .ok (.vnum n)
  | .num, v, p => .error { path := p, expected := "number", actual := kindName v }
  | .bool, .bool b, _ => .ok (.vbool b)
  | .bool, v, p => .error { path := p, expected := "bool", actual := kindName v }
  | .opt _, .null, _ => .ok (.vopt none)
  | .opt t, v, p =>
      match decode t v p with
      | .ok tv => .ok (.vopt (some tv))
      | .error e => .error e
  | .seqT _, .null, _ => .ok (.vseq [])
  | .seqT t, .seq xs, p =>
      match decodeSeq t xs p 0 with
      | .ok tvs => .ok (.vseq tvs)
      | .error e => .error e
  | .seqT _, v, p => .error { path := p, expected := "sequence", actual := kindName v }
  | .record fts, .obj fs, p =>
      match decodeRecord fts fs p with
      | .ok fvs => .ok (.vrecord fvs)
      | .error e => .error e
  | .record _, v, p => .error { path := p, expected := "object", actual := kindName v }

/-- Element-wise decode of a source sequence, extending the path with the
element index; the first failing element aborts the whole sequence. -/
def decodeSeq : TargetTy → List Value → String → Nat → Except TypeMismatchError (List TVal)
  | _, [], _, _ => .ok []
  | t, x :: xs, p, i =>
      match decode t x (extendPath p (toString i)) with
      | .error e => .error e
      | .ok tv =>
          match decodeSeq t xs p (i + 1) with
          | .error e => .error e
          | .ok tvs => .ok (tv :: tvs)

/-- Field-wise decode of a record target from a source object: each target
field is matched by name, an absent source field leaves the zero value,
and the first failing field aborts the whole record. -/
def decodeRecord : List (String × TargetTy) → List (String × Value) → String →
    Except TypeMismatchError (List (String × TVal))
  | [], _, _ => .ok []
  | (n, t) :: rest, fs, p =>
      match lookupField fs n with
      | none =>
          match decodeRecord rest fs p with
          | .error e => .error e
          | .ok fvs => .ok ((n, zeroVal t) :: fvs)
      | some v =>
          match decode t v (extendPath p n) with
          | .error e => .error e
          | .ok tv =>
              match decodeRecord rest fs p with
              | .error e => .error e
              | .ok fvs => .ok ((n, tv) :: fvs)

end

mutual

/-- Whether a populated target value fully conforms to a target shape:
matching scalar kinds, conforming optional and sequence contents, and
records with exactly the target's field names in order, each conforming. -/
def conforms : TVal → TargetTy → Bool
  | .vstr _, .str => true
  | .vnum _, .num => true
  | .vbool _, .bool => true
  | .vopt none, .opt _ => true
  | .vopt (some tv), .opt t => conforms tv t
  | .vseq tvs, .seqT t => conformsSeq tvs t
  | .vrecord fvs, .record fts => conformsRecord fvs fts
  | _, _ => false

/-- Whether every element of a sequence conforms to the element shape. -/
def conformsSeq : List TVal → TargetTy → Bool
  | [], _ => true
  | tv :: tvs, t => conforms tv t && conformsSeq tvs t

/-- Whether record fields conform to the record's field shapes, name by
name in order. -/
def conformsRecord : List (String × TVal) → List (String × TargetTy) → Bool
  | [], [] => true
  | (n, tv) :: fvs, (n', t) :: fts =>
      (n == n') && conforms tv t && conformsRecord fvs fts
  | _, _ => false

end

theorem lookupField_set_self (r : Result) (x : String) (v : Value) :
    lookupField (Set r x v) x = some v := by
  induction r with
  | nil => simp [Set, lookupField]
  | cons p rest ih =>
      obtain ⟨k, w⟩ := p
      by_cases h : k = x
      · simp [Set, h, lookupField]
      · simp [Set, h, lookupField, ih]

theorem lookupField_set_other (r : Result) (x y : String) (v : Value) (hxy : y ≠ x) :
    lookupField (Set r x v) y = lookupField r y := by
  have hxy' : x ≠ y := fun h => hxy h.symm
  induction r with
  | nil => simp [Set, lookupField, hxy']
  | cons p rest ih =>
      obtain ⟨k, w⟩ := p
      by_cases h : k = x
      · subst h
        simp [Set, lookupField, hxy']
      · simp [Set, h, lookupField, ih]

theorem lookupField_eq_none_iff (r : List (String × Value)) (f : String) :
    lookupField r f = none ↔ ∀ v : Value, (f, v) ∉ r := by
  induction r with
  | nil => simp [lookupField]
  | cons p rest ih =>
      obtain ⟨k, w⟩ := p
      by_cases h : k = f
      · subst h
        simp only [lookupField, if_pos rfl]
        constructor
        · intro hsome
          exact absurd hsome (by simp)
        · intro hall
          exact absurd (List.mem_cons_self _ _) (hall w)
      · simp only [lookupField, if_neg h, ih, List.mem_cons]
        constructor
        · intro hall v hv
          rcases hv with hv | hv
          · exact h (congrArg Prod.fst hv).symm
          · exact hall v hv
        · intro hall v hv
          exact hall v (Or.inr hv)

/-- C3: path resolution walks segments left to right; missing object keys,
non-numeric or out-of-range sequence indices, and null/scalar values met
before the path is exhausted all yield not-found rather than an error, the
empty path resolves to the root itself, and a successful step descends into
the selected child. -/
theorem resolve_spec :
    (∀ v : Value, resolve v [] = some v) ∧
    (∀ (fs : List (String × Value)) (f : String) (rest : List String),
      lookupField fs f = none → resolve (.obj fs) (f :: rest) = none) ∧
    (∀ (fs : List (String × Value)) (f : String) (rest : List String) (v : Value),
      lookupField fs f = some v → resolve (.obj fs) (f :: rest) = resolve v rest) ∧
    (∀ (xs : List Value) (f : String) (rest : List String),
      parseIndex f = none → resolve (.seq xs) (f :: rest) = none) ∧
    (∀ (xs : List Value) (f : String) (rest : List String) (i : Nat),
      parseIndex f = some i → xs.length ≤ i → resolve (.seq xs) (f :: rest) = none) ∧
    (∀ (xs : List Value) (f : String) (rest : List String) (i : Nat) (v : Value),
      parseIndex f = some i → xs[i]? = some v →
        resolve (.seq xs) (f :: rest) = resolve v rest) ∧
    (∀ (f : String) (rest : List String),
      resolve .null (f :: rest) = none) ∧
    (∀ (s : String) (f : String) (rest : List String),
      resolve (.str s) (f :: rest) = none) ∧
    (∀ (n : Int) (f : String) (rest : List String),
      resolve (.num n) (f :: rest) = none) ∧
    (∀ (b : Bool) (f : String) (rest : List String),
      resolve (.bool b) (f :: rest) = none) := by
  refine ⟨fun v => by cases v <;> rfl, ?_, ?_, ?_, ?_, ?_, fun f rest => rfl,
    fun s f rest => rfl, fun n f rest => rfl, fun b f rest => rfl⟩
  · intro fs f rest h
    simp [resolve, h]
  · intro fs f rest v h
    simp [resolve, h]
  · intro xs f rest h
    simp [resolve, h]
  · intro xs f rest i h hlen
    have hnone : xs[i]? = none := by
      rw [List.getElem?_eq_none_iff]
      exact hlen
    simp [resolve, h, hnone]
  · intro xs f rest i v h hv
    simp [resolve, h, hv]

/-- C3 witness: the resolver evaluated at concrete inputs, one per clause
with a hypothesis. -/
theorem resolve_spec_witness :
    resolve (.obj [("a", .num 1)]) ["b"] = none ∧
    resolve (.obj [("a", .num 1)]) ["a"] = some (.num 1) ∧
    resolve (.seq [.num 7]) ["x"] = none ∧
    resolve (.seq [.num 7]) ["3"] = none ∧
    resolve (.seq [.num 7]) ["0"] = some (.num 7) := by
  refine ⟨?_, ?_, ?_, ?_, ?_⟩
  · exact resolve_spec.2.1 [("a", .num 1)] "b" [] rfl
  · exact resolve_spec.2.2.1 [("a", .num 1)] "a" [] (.num 1) rfl
  · exact resolve_spec.2.2.2.1 [.num 7] "x" [] rfl
  · exact resolve_spec.2.2.2.2.1 [.num 7] "3" [] 3 rfl (by decide)
  · exact resolve_spec.2.2.2.2.2.1 [.num 7] "0" [] 0 (.num 7) rfl rfl

/-- C8: setting field `x` to `V` on a Value Store and then getting `x`
returns `V`, and every other field is unchanged by the set. -/
theorem set_get_roundtrip :
    ∀ (r : Result) (x : String) (v : Value),
      Get (Set r x v) x = some v ∧
      ∀ y : String, y ≠ x → Get (Set r x v) y = Get r y :=
  fun r x v =>
    ⟨lookupField_set_self r x v, fun y hy => lookupField_set_other r x y v hy⟩

/-- C8 witness: the round trip at a concrete store, field and value. -/
theorem set_get_roundtrip_witness :
    Get (Set [("a", .num 1), ("b", .num 2)] "x" (.str "V")) "x" = some (.str "V") ∧
    Get (Set [("a", .num 1), ("b", .num 2)] "x" (.str "V")) "a" = some (.num 1) :=
  ⟨(set_get_roundtrip [("a", .num 1), ("b", .num 2)] "x" (.str "V")).1,
   (set_get_roundtrip [("a", .num 1), ("b", .num 2)] "x" (.str "V")).2 "a" (by simp)⟩

/-- C9: `Get` is total at the public interface — for every store and every
field name, an absent key yields the absent value `none` (the zero value of
a Go map lookup), never a failure; and `none` is returned exactly for
absent keys. -/
theorem get_absent_total :
    ∀ (r : Result) (f : String), Get r f = none ↔ ∀ v : Value, (f, v) ∉ r :=
  fun r f => lookupField_eq_none_iff r f

/-- C9 witness: `Get` at a concrete store and absent field. -/
theorem get_absent_total_witness :
    Get [("a", .num 1)] "missing" = none :=
  (get_absent_total [("a", .num 1)] "missing").2 (fun v => by simp)

theorem err_isSome_iff (r : Result) :
    (Err r).isSome = true ↔ ∃ p ∈ r, isErrorEntry p = true := by
  induction r with
  | nil => simp [Err]
  | cons p rest ih =>
      obtain ⟨k, v⟩ := p
      by_cases he : isErrorEntry (k, v) = true
      · have hv : ∃ o, v = .obj o ∧ containsKey o "message" = true := by
          cases v with
          | obj o => exact ⟨o, rfl, by simpa [isErrorEntry] using he⟩
          | null => simp [isErrorEntry] at he
          | bool b => simp [isErrorEntry] at he
          | num n => simp [isErrorEntry] at he
          | str s => simp [isErrorEntry] at he
          | seq xs => simp [isErrorEntry] at he
        obtain ⟨o, rfl, ho⟩ := hv
        constructor
        · intro _
          exact ⟨(k, .obj o), List.mem_cons_self _ _, he⟩
        · intro _
          simp [Err, ho]
      · have hstep : Err ((k, v) :: rest) = Err rest := by
          cases v with
          | obj o =>
              have ho : containsKey o "message" = false := by
                simpa [isErrorEntry] using he
              simp [Err, ho]
          | null => simp [Err]
          | bool b => simp [Err]
          | num n => simp [Err]
          | str s => simp [Err]
          | seq xs => simp [Err]
        rw [hstep, ih]
        constructor
        · rintro ⟨q, hq, hqe⟩
          exact ⟨q, List.mem_cons_of_mem _ hq, hqe⟩
        · rintro ⟨q, hq, hqe⟩
          rcases List.mem_cons.1 hq with hq1 | hq2
          · subst hq1
            exact absurd hqe he
          · exact ⟨q, hq2, hqe⟩

theorem getIntField_absent (o : List (String × Value)) (k : String)
    (h : containsKey o k = false) : getIntField o k = 0 := by
  have hnone : lookupField o k = none := by
    cases hl : lookupField o k with
    | none => rfl
    | some v => simp [containsKey, hl] at h
  simp [getIntField, hnone]

theorem getStrField_absent (o : List (String × Value)) (k : String)
    (h : containsKey o k = false) : getStrField o k = "" := by
  have hnone : lookupField o k = none := by
    cases hl : lookupField o k with
    | none => rfl
    | some v => simp [containsKey, hl] at h
  simp [getStrField, hnone]

/-- C2: the Error Extractor returns no error for the store decoded from the
document with only a `data` list, returns an `Error` with message
"Invalid OAuth access token" for the OAuth error envelope, synthesizes an
error exactly when some key's value is an Object with at least a `message`
field, and defaults missing numeric fields to zero and a missing type to
the empty string. -/
theorem err_extractor_spec :
    Err [("data", .seq [.obj [("id", .str "1")]])] = none ∧
    Err [("error", .obj [("message", .str "Invalid OAuth access token"),
        ("type", .str "OAuthException"), ("code", .num 190)])] =
      some { Message := "Invalid OAuth access token", «Type» := "OAuthException",
             Code := 190, ErrorSubcode := 0 } ∧
    (∀ r : Result, (Err r).isSome = true ↔ ∃ p ∈ r, isErrorEntry p = true) ∧
    (∀ o : List (String × Value),
      containsKey o "code" = false → (mkError o).Code = 0) ∧
    (∀ o : List (String × Value),
      containsKey o "error_subcode" = false → (mkError o).ErrorSubcode = 0) ∧
    (∀ o : List (String × Value),
      containsKey o "type" = false → (mkError o).«Type» = "") :=
  ⟨rfl, rfl, err_isSome_iff,
   fun o h => getIntField_absent o "code" h,
   fun o h => getIntField_absent o "error_subcode" h,
   fun o h => getStrField_absent o "type" h⟩

/-- C2 witness: the extractor and the defaulting rules evaluated at a
concrete error envelope lacking type, code and subcode. -/
theorem err_extractor_spec_witness :
    (Err [("error", .obj [("message", .str "m")])]).isSome = true ∧
    (mkError [("message", .str "m")]).Code = 0 ∧
    (mkError [("message", .str "m")]).ErrorSubcode = 0 ∧
    (mkError [("message", .str "m")]).«Type» = "" :=
  ⟨(err_extractor_spec.2.2.1 [("error", .obj [("message", .str "m")])]).2
      ⟨("error", .obj [("message", .str "m")]), by simp, rfl⟩,
   err_extractor_spec.2.2.2.1 [("message", .str "m")] rfl,
   err_extractor_spec.2.2.2.2.1 [("message", .str "m")] rfl,
   err_extractor_spec.2.2.2.2.2 [("message", .str "m")] rfl⟩

/-- C6: a listing whose paging metadata has a next URL but no previous URL
has `HasNext` true and `HasPrevious` false, and advancing to the previous
page fails with `noSuchPage` making zero executor calls; in general an
absent continuation URL makes `advance` fail with `noSuchPage` and zero
calls, and a listing with no `paging` key has both directions unavailable. -/
theorem paging_no_such_page :
    (∀ (r : Result) (p : List (String × Value)),
      lookupField r "paging" = some (.obj p) →
      getStrField p "next" ≠ "" → getStrField p "previous" = "" →
      HasNext (mkPagingResult r) = true ∧ HasPrevious (mkPagingResult r) = false ∧
      ∀ exec : String → Except String Result,
        advance (mkPagingResult r) .previous exec = (.error .noSuchPage, 0)) ∧
    (∀ (pr : PagingResult) (exec : String → Except String Result),
      pr.previous = "" → advance pr .previous exec = (.error .noSuchPage, 0)) ∧
    (∀ (pr : PagingResult) (exec : String → Except String Result),
      pr.next = "" → advance pr .next exec = (.error .noSuchPage, 0)) ∧
    (∀ r : Result, lookupField r "paging" = none →
      HasNext (mkPagingResult r) = false ∧ HasPrevious (mkPagingResult r) = false) := by
  refine ⟨?_, ?_, ?_, ?_⟩
  · intro r p hp hnext hprev
    refine ⟨?_, ?_, ?_⟩
    · simp [HasNext, mkPagingResult, hp, bne_iff_ne, hnext]
    · simp [HasPrevious, mkPagingResult, hp, hprev]
    · intro exec
      simp [advance, mkPagingResult, hp, hprev]
  · intro pr exec h
    simp [advance, h]
  · intro pr exec h
    simp [advance, h]
  · intro r h
    constructor
    · simp [HasNext, mkPagingResult, h]
    · simp [HasPrevious, mkPagingResult, h]

/-- C6 witness: the pagination behavior at the spec's concrete listing with
cursors and a next URL only, and at a listing with no paging key. -/
theorem paging_no_such_page_witness :
    HasNext (mkPagingResult [("data", .seq [.obj [("id", .str "1")]]),
      ("paging", .obj [("cursors", .obj [("after", .str "X")]),
        ("next", .str "https://graph.facebook.com/me/friends?after=X")])]) = true ∧
    HasPrevious (mkPagingResult [("data", .seq [.obj [("id", .str "1")]]),
      ("paging", .obj [("cursors", .obj [("after", .str "X")]),
        ("next", .str "https://graph.facebook.com/me/friends?after=X")])]) = false ∧
    advance (mkPagingResult [("data", .seq [.obj [("id", .str "1")]]),
      ("paging", .obj [("cursors", .obj [("after", .str "X")]),
        ("next", .str "https://graph.facebook.com/me/friends?after=X")])])
      .previous (fun _ => .error "never called") = (.error .noSuchPage, 0) ∧
    HasNext (mkPagingResult [("data", .seq [])]) = false := by
  have h := paging_no_such_page.1
    [("data", .seq [.obj [("id", .str "1")]]),
      ("paging", .obj [("cursors", .obj [("after", .str "X")]),
        ("next", .str "https://graph.facebook.com/me/friends?after=X")])]
    [("cursors", .obj [("after", .str "X")]),
      ("next", .str "https://graph.facebook.com/me/friends?after=X")]
    rfl (by simp [getStrField, lookupField]) rfl
  have h4 := paging_no_such_page.2.2.2 [("data", .seq [])] rfl
  exact ⟨h.1, h.2.1, h.2.2 _, h4.1⟩

/-- C5: batch expansion of K raw items yields exactly K results in the same
order for every parser; each slot depends only on its own raw item, with
status code and headers preserved and the decoded slot holding exactly the
parse outcome of that item's body, so one item's parse failure never
touches its siblings. -/
theorem batch_expansion_spec :
    ∀ (parse : String → Except String Result) (items : List RawBatchItem),
      (Batch parse items).length = items.length ∧
      (∀ i : Nat, (Batch parse items)[i]? = (items[i]?).map (expandBatchItem parse)) ∧
      (∀ it : RawBatchItem,
        (expandBatchItem parse it).StatusCode = it.code ∧
        (expandBatchItem parse it).Header = it.headers ∧
        (expandBatchItem parse it).Result = parse it.body) :=
  fun parse items =>
    ⟨by simp [Batch],
     fun i => by simp [Batch, List.getElem?_map],
     fun it => ⟨rfl, rfl, rfl⟩⟩

/-- C10: every expanded batch item retains the raw transport body string
unchanged, for every parser — also when parsing succeeds. -/
theorem batch_body_retained :
    ∀ (parse : String → Except String Result) (it : RawBatchItem),
      (expandBatchItem parse it).Body = it.body :=
  fun _ _ => rfl

mutual

theorem zeroVal_conforms (t : TargetTy) : conforms (zeroVal t) t = true := by
  cases t with
  | str => simp [zeroVal, conforms]
  | num => simp [zeroVal, conforms]
  | bool => simp [zeroVal, conforms]
  | opt t => simp [zeroVal, conforms]
  | seqT t => simp [zeroVal, conforms, conformsSeq]
  | record fts =>
      have h := zeroFields_conforms fts
      simp [zeroVal, conforms, h]

theorem zeroFields_conforms (fts : List (String × TargetTy)) :
    conformsRecord (zeroFields fts) fts = true := by
  cases fts with
  | nil => simp [zeroFields, conformsRecord]
  | cons q rest =>
      obtain ⟨n, t⟩ := q
      have h1 := zeroVal_conforms t
      have h2 := zeroFields_conforms rest
      simp [zeroFields, conformsRecord, h1, h2]

end

mutual

theorem decode_ok_conforms (t : TargetTy) (v : Value) (p : String) (tv : TVal)
    (h : decode t v p = Except.ok tv) : conforms tv t = true := by
  rw [decode.eq_def] at h
  split at h
  any_goals exact Except.noConfusion h
  any_goals (injection h with h1; subst h1; simp [conforms, conformsSeq])
  all_goals split at h
  all_goals try exact Except.noConfusion h
  all_goals
    (rename_i heq
     injection h with h1
     subst h1
     simp only [conforms]
     first
       | exact decode_ok_conforms _ _ _ _ heq
       | exact decodeSeq_ok_conforms _ _ _ _ _ heq
       | exact decodeRecord_ok_conforms _ _ _ _ heq)

theorem decodeSeq_ok_conforms (t : TargetTy) (xs : List Value) (p : String) (i : Nat)
    (tvs : List TVal) (h : decodeSeq t xs p i = Except.ok tvs) :
    conformsSeq tvs t = true := by
  rw [decodeSeq.eq_def] at h
  split at h
  · injection h with h1
    subst h1
    simp [conformsSeq]
  · split at h
    all_goals try exact Except.noConfusion h
    split at h
    all_goals try exact Except.noConfusion h
    injection h with h1
    subst h1
    simp only [conformsSeq, Bool.and_eq_true]
    exact ⟨decode_ok_conforms _ _ _ _ (by assumption),
      decodeSeq_ok_conforms _ _ _ _ _ (by assumption)⟩

theorem decodeRecord_ok_conforms (fts : List (String × TargetTy))
    (fs : List (String × Value)) (p : String) (fvs : List (String × TVal))
    (h : decodeRecord fts fs p = Except.ok fvs) :
    conformsRecord fvs fts = true := by
  rw [decodeRecord.eq_def] at h
  split at h
  · injection h with h1
    subst h1
    simp [conformsRecord]
  · split at h
    · split at h
      all_goals try exact Except.noConfusion h
      injection h with h1
      subst h1
      simp only [conformsRecord, beq_self_eq_true, Bool.true_and, zeroVal_conforms,
        Bool.and_eq_true]
      exact decodeRecord_ok_conforms _ _ _ _ (by assumption)
    · split at h
      all_goals try exact Except.noConfusion h
      split at h
      all_goals try exact Except.noConfusion h
      injection h with h1
      subst h1
      simp only [conformsRecord, beq_self_eq_true, Bool.true_and, Bool.and_eq_true]
      exact ⟨decode_ok_conforms _ _ _ _ (by assumption),
        decodeRecord_ok_conforms _ _ _ _ (by assumption)⟩

end

/-- C1: decode is atomic — for every target shape, source value and field
path, the outcome is either a fully populated target conforming to the
target shape or a `TypeMismatchError`, never a half-written target (decode
is a pure function of its own arguments, so a failed call cannot corrupt
results returned by prior calls); and a mismatch in a record field aborts
the whole decode, propagating that field's error unchanged to the caller. -/
theorem decode_atomic :
    (∀ (t : TargetTy) (v : Value) (p : String),
      (∃ tv, decode t v p = Except.ok tv ∧ conforms tv t = true) ∨
      (∃ e, decode t v p = Except.error e)) ∧
    (∀ (n : String) (t : TargetTy) (rest : List (String × TargetTy))
        (fs : List (String × Value)) (p : String) (v : Value) (e : TypeMismatchError),
      lookupField fs n = some v → decode t v (extendPath p n) = Except.error e →
        decode (.record ((n, t) :: rest)) (.obj fs) p = Except.error e) := by
  constructor
  · intro t v p
    cases h : decode t v p with
    | ok tv => exact Or.inl ⟨tv, rfl, decode_ok_conforms t v p tv h⟩
    | error e => exact Or.inr ⟨e, rfl⟩
  · intro n t rest fs p v e h1 h2
    simp [decode, decodeRecord, h1, h2]

/-- C1 witness: a record whose one field mismatches decodes to exactly that
field's error, at concrete inputs. -/
theorem decode_atomic_witness :
    decode (.record [("a", .num)]) (.obj [("a", .str "12")]) "" =
      Except.error { path := "a", expected := "number", actual := "string" } :=
  decode_atomic.2 "a" .num [] [("a", .str "12")] "" (.str "12")
    { path := "a", expected := "number", actual := "string" }
    (by simp [lookupField])
    (by simp [decode, extendPath, kindName])

/-- C4: decoding a String source into a number target is never auto-coerced,
even when the string's content is numeric: the decoder returns a
`TypeMismatchError` naming the expected kind (number), the actual kind
(string) and the field path so far, for every string content. -/
theorem decode_no_numeric_string_coercion :
    ∀ (s p : String),
      decode .num (.str s) p =
        Except.error { path := p, expected := "number", actual := "string" } := by
  intro s p
  simp [decode, kindName]

/-- C7: decoding a Null source into an optional slot never errors and
leaves the slot in its zero/empty state, decoding Null into a sequence
target yields the empty sequence rather than an error, and decoding Null
into any non-optional scalar target returns a `TypeMismatchError`. -/
theorem decode_null_spec :
    ∀ (t : TargetTy) (p : String),
      decode (.opt t) .null p = Except.ok (.vopt none) ∧
      zeroVal (.opt t) = .vopt none ∧
      decode (.seqT t) .null p = Except.ok (.vseq []) ∧
      decode .str .null p =
        Except.error { path := p, expected := "string", actual := "null" } ∧
      decode .num .null p =
        Except.error { path := p, expected := "number", actual := "null" } ∧
      decode .bool .null p =
        Except.error { path := p, expected := "bool", actual := "null" } := by
  intro t p
  refine ⟨?_, ?_, ?_, ?_, ?_, ?_⟩ <;> simp [decode, zeroVal, kindName]

end Facebook
